import Mathlib

/-!
Verification of the indicator engine in `src/services/math.ts`.

Numbers: JavaScript floating-point arithmetic is idealised as exact rational
arithmetic (`ℚ`).  Rounding error is ignored (so "within 1e-9 relative
tolerance" claims are settled by exact equality or an exact `ℚ` inequality),
but the *discrete* sources of NaN/Infinity — zero denominators and the
`isNaN` checks — are tracked explicitly: every division the source performs
is embedded as `ℚ` division, and where a claim is about NaN handling the
relevant values are modelled with the `JsVal` type below, which carries
NaN and the two infinities alongside finite rationals.

The transcendental Gaussian kernel weight
`Math.exp(-(d*d)/(2*bandwidth*bandwidth))` of the Nadaraya–Watson code is
not a rational-valued function; it is abstracted as an explicit weight
parameter `w : ℕ → ℚ` (a function of the integer distance `d = i - j`).
Both the batch and the incremental kernel-envelope embeddings take the same
`w`, mirroring "same bandwidth in both paths".  Theorems assume of `w` only
properties the Gaussian weight actually has (`w 0 = 1`, `0 ≤ w d`).

`isNaN` on a `ℚ` value is constantly `false` (exact rationals have no NaN);
the branches guarded by `isNaN` in the source are kept in the embedding,
with that constant, so the control flow stays recognisable.
-/

/-- OHLCV bar, `Candle` of `src/types.ts` restricted to the fields the
indicator engine reads. -/
structure Candle where
  time : ℚ
  open_ : ℚ
  high : ℚ
  low : ℚ
  close : ℚ
  volume : ℚ
deriving DecidableEq, Repr

instance : Inhabited Candle := ⟨⟨0, 0, 0, 0, 0, 0⟩⟩

/-- JavaScript `isNaN` restricted to exact rationals: always `false`.
Kept so that the source's `isNaN` guards remain visible in the embedding. -/
def isNaNQ (_ : ℚ) : Bool := false

/-- Candle at index `i` of a bar list (in-range reads only are ever used by
the source loops; out-of-range reads fall back to the zero candle). -/
def barAt (data : List Candle) (i : ℕ) : Candle := data.getD i default

/- ---------------------------------------------------------------------
RSI, `calculateRSI` (math.ts lines 7-50)
--------------------------------------------------------------------- -/

/-- Close-to-close change `data[i].close - data[i-1].close`. -/
def rsiChange (data : List Candle) (i : ℕ) : ℚ :=
  (barAt data i).close - (barAt data (i - 1)).close

/-- Gain contribution of index `i` (`change >= 0 ? change : 0`). -/
def rsiGain (data : List Candle) (i : ℕ) : ℚ :=
  if 0 ≤ rsiChange data i then rsiChange data i else 0

/-- Loss contribution of index `i` (`change < 0 ? |change| : 0`). -/
def rsiLoss (data : List Candle) (i : ℕ) : ℚ :=
  if rsiChange data i < 0 then -(rsiChange data i) else 0

/-- The pair `(avgGain, avgLoss)` of `calculateRSI` as of index `period + j`:
offset `0` is the seed (simple averages of the first `period` changes,
loop at lines 16-23), offset `j+1` applies the Wilder update of
lines 33-39 at index `period + j + 1`. -/
def rsiAvg (data : List Candle) (period : ℕ) : ℕ → ℚ × ℚ
  | 0 =>
      ((∑ i ∈ Finset.range period, rsiGain data (i + 1)) / period,
       (∑ i ∈ Finset.range period, rsiLoss data (i + 1)) / period)
  | j + 1 =>
      let p := rsiAvg data period j
      ((p.1 * ((period : ℚ) - 1) + rsiGain data (period + j + 1)) / period,
       (p.2 * ((period : ℚ) - 1) + rsiLoss data (period + j + 1)) / period)

/-- RSI value written at index `i ≥ period` (lines 26-30 and 41-46):
`100` when the average loss is zero, else `100 - 100/(1 + avgGain/avgLoss)`. -/
def rsiAt (data : List Candle) (period i : ℕ) : ℚ :=
  let p := rsiAvg data period (i - period)
  if p.2 = 0 then 100 else 100 - 100 / (1 + p.1 / p.2)

/-- Batch RSI: an array of `data.length` entries, all `0` when
`data.length < period + 1`, otherwise `0` below index `period` and the
Wilder RSI from index `period` on. -/
def calculateRSI (data : List Candle) (period : ℕ) : List ℚ :=
  if data.length < period + 1 then List.replicate data.length 0
  else (List.range data.length).map fun i =>
    if i < period then 0 else rsiAt data period i

/- ---------------------------------------------------------------------
EMA, `calculateEMA` (math.ts lines 55-79)
--------------------------------------------------------------------- -/

/-- Smoothing constant `k = 2 / (period + 1)`. -/
def emaK (period : ℕ) : ℚ := 2 / ((period : ℚ) + 1)

/-- EMA value at index `period - 1 + j`: offset `0` is the SMA seed of the
first `period` closes (lines 62-66), offset `j+1` applies line 74 at index
`period + j` (the `isNaN` fallback of lines 71-72 is kept, vacuous on `ℚ`). -/
def emaVal (data : List Candle) (period : ℕ) : ℕ → ℚ
  | 0 => (∑ i ∈ Finset.range period, (barAt data i).close) / period
  | j + 1 =>
      let prevEma := emaVal data period j
      if isNaNQ prevEma then (barAt data (period + j)).close
      else (barAt data (period + j)).close * emaK period
           + prevEma * (1 - emaK period)

/-- Batch EMA: all zeros when `data.length < period`, else `0` below the
seed index `period - 1` and the EMA recurrence from there on. -/
def calculateEMA (data : List Candle) (period : ℕ) : List ℚ :=
  if data.length < period then List.replicate data.length 0
  else (List.range data.length).map fun i =>
    if i < period - 1 then 0 else emaVal data period (i - (period - 1))

/- ---------------------------------------------------------------------
ATR, `calculateATR` (math.ts lines 84-117)
--------------------------------------------------------------------- -/

/-- True Range series of `calculateATR` (lines 91-102):
`high - low` at index 0, else
`max(high - low, |high - prevClose|, |low - prevClose|)`. -/
def trAt (data : List Candle) (i : ℕ) : ℚ :=
  if i = 0 then (barAt data 0).high - (barAt data 0).low
  else
    max ((barAt data i).high - (barAt data i).low)
      (max |(barAt data i).high - (barAt data (i - 1)).close|
           |(barAt data i).low - (barAt data (i - 1)).close|)

/-- ATR value at index `period - 1 + j`: offset `0` is the SMA seed over
`TR[0..period-1]` (lines 105-109), offset `j+1` is Wilder's smoothing
(line 113) at index `period + j`. -/
def atrVal (data : List Candle) (period : ℕ) : ℕ → ℚ
  | 0 => (∑ i ∈ Finset.range period, trAt data i) / period
  | j + 1 =>
      (atrVal data period j * ((period : ℚ) - 1) + trAt data (period + j))
        / period

/-- Batch ATR: all zeros when `data.length < period`, else `0` below the
seed index `period - 1` and Wilder smoothing from there on. -/
def calculateATR (data : List Candle) (period : ℕ) : List ℚ :=
  if data.length < period then List.replicate data.length 0
  else (List.range data.length).map fun i =>
    if i < period - 1 then 0 else atrVal data period (i - (period - 1))

/- ---------------------------------------------------------------------
ADX, `calculateADX` (math.ts lines 122-204)
--------------------------------------------------------------------- -/

/-- True Range series of `calculateADX` (lines 131-145): `0` is pushed at
index 0, else the same `max` as ATR's TR. -/
def adxTr (data : List Candle) (i : ℕ) : ℚ :=
  if i = 0 then 0
  else
    max ((barAt data i).high - (barAt data i).low)
      (max |(barAt data i).high - (barAt data (i - 1)).close|
           |(barAt data i).low - (barAt data (i - 1)).close|)

/-- Plus directional movement (lines 148-152): `upMove` when
`upMove > downMove && upMove > 0`, else `0`; `0` at index 0. -/
def plusDMAt (data : List Candle) (i : ℕ) : ℚ :=
  if i = 0 then 0
  else
    let upMove := (barAt data i).high - (barAt data (i - 1)).high
    let downMove := (barAt data (i - 1)).low - (barAt data i).low
    if downMove < upMove ∧ 0 < upMove then upMove else 0

/-- Minus directional movement (lines 149-155), symmetric gate. -/
def minusDMAt (data : List Candle) (i : ℕ) : ℚ :=
  if i = 0 then 0
  else
    let upMove := (barAt data i).high - (barAt data (i - 1)).high
    let downMove := (barAt data (i - 1)).low - (barAt data i).low
    if upMove < downMove ∧ 0 < downMove then downMove else 0

/-- Wilder smoothed-sum series used for TR, +DM and -DM alike
(lines 163-177): value at index `period + j`; offset `0` is the plain sum
of entries `1..period`, offset `j+1` is
`smooth[i] = smooth[i-1] - smooth[i-1]/period + series[i]` at
`i = period + j + 1`. -/
def smoothSeries (f : ℕ → ℚ) (period : ℕ) : ℕ → ℚ
  | 0 => ∑ i ∈ Finset.range period, f (i + 1)
  | j + 1 =>
      let s := smoothSeries f period j
      s - s / period + f (period + j + 1)

/-- DX value at index `i ≥ period` (lines 182-188): directional indices
`pdi = smoothPlusDM/smoothTR * 100`, `mdi` symmetric; `0` when
`pdi + mdi = 0`, else `|pdi - mdi| / (pdi + mdi) * 100`.

Caveat: the divisions by `st` (the smoothed TR) are unguarded in the
source and `st = 0` is reachable from finite inputs; `ℚ` division
totalises `x / 0` to `0`, where JavaScript would produce
Infinity (`x > 0`) or NaN (`x = 0`), so this embedding is exact only when
`st ≠ 0`.  The float behaviour of these lines on the `st = 0` path is
modelled faithfully by `jsDx` below over `JsVal`. -/
def dxAt (data : List Candle) (period i : ℕ) : ℚ :=
  let st := smoothSeries (adxTr data) period (i - period)
  let pdi := smoothSeries (plusDMAt data) period (i - period) / st * 100
  let mdi := smoothSeries (minusDMAt data) period (i - period) / st * 100
  if pdi + mdi = 0 then 0 else |pdi - mdi| / (pdi + mdi) * 100

/-- ADX value at index `2*period - 1 + j` (lines 192-201): offset `0` is
the simple average of `DX[period .. 2*period-1]`, offset `j+1` is Wilder
smoothing of DX at index `2*period + j`. -/
def adxVal (data : List Candle) (period : ℕ) : ℕ → ℚ
  | 0 => (∑ i ∈ Finset.range period, dxAt data period (period + i)) / period
  | j + 1 =>
      (adxVal data period j * ((period : ℚ) - 1)
        + dxAt data period (2 * period + j)) / period

/-- Batch ADX: all zeros when `data.length < 2*period`, else `0` below
index `2*period - 1` and smoothed DX from there on. -/
def calculateADX (data : List Candle) (period : ℕ) : List ℚ :=
  if data.length < period * 2 then List.replicate data.length 0
  else (List.range data.length).map fun i =>
    if i < 2 * period - 1 then 0 else adxVal data period (i - (2 * period - 1))

/- ---------------------------------------------------------------------
Nadaraya-Watson envelope, `calculateNadarayaWatson` (lines 210-258) and
`calculateNextNadarayaWatson` (lines 264-315).  The Gaussian weight
`exp(-(d*d)/(2*bandwidth*bandwidth))` is the parameter `w` applied to the
distance `d = i - j`.
--------------------------------------------------------------------- -/

/-- Window size `lookback = min(500, n)` (line 217). -/
def nwLookback (n : ℕ) : ℕ := min 500 n

/-- Window start `startJ = max(0, i - lookback)` (line 231); on `ℕ` the
truncated subtraction is exactly that `max`. -/
def nwStart (n i : ℕ) : ℕ := i - nwLookback n

/-- Weight sum `Σ_{j=startJ..i} w(i-j)` (lines 233-240). -/
def nwSumW (w : ℕ → ℚ) (n i : ℕ) : ℚ :=
  ∑ j ∈ Finset.Icc (nwStart n i) i, w (i - j)

/-- Weighted close sum `Σ_{j=startJ..i} close[j]*w(i-j)` (line 239). -/
def nwSumWC (w : ℕ → ℚ) (data : List Candle) (i : ℕ) : ℚ :=
  ∑ j ∈ Finset.Icc (nwStart data.length i) i, (barAt data j).close * w (i - j)

/-- Estimator `yHat` (line 243): the weighted mean when the weight sum is
positive, else the raw close. -/
def nwYHat (w : ℕ → ℚ) (data : List Candle) (i : ℕ) : ℚ :=
  if 0 < nwSumW w data.length i then nwSumWC w data i / nwSumW w data.length i
  else (barAt data i).close

/-- Weighted absolute-deviation sum (lines 246-250). -/
def nwSumWD (w : ℕ → ℚ) (data : List Candle) (i : ℕ) : ℚ :=
  ∑ j ∈ Finset.Icc (nwStart data.length i) i,
    w (i - j) * |(barAt data j).close - nwYHat w data i|

/-- Mean absolute error `mae` (line 252): guarded by the same positive
weight-sum test, else `0`. -/
def nwMae (w : ℕ → ℚ) (data : List Candle) (i : ℕ) : ℚ :=
  if 0 < nwSumW w data.length i then nwSumWD w data i / nwSumW w data.length i
  else 0

/-- Midline entry (lines 220-225, 244): raw close for the first 10
indices, else `yHat`. -/
def nwMidAt (w : ℕ → ℚ) (data : List Candle) (i : ℕ) : ℚ :=
  if i < 10 then (barAt data i).close else nwYHat w data i

/-- Upper band entry (lines 222, 253). -/
def nwUpperAt (w : ℕ → ℚ) (data : List Candle) (m : ℚ) (i : ℕ) : ℚ :=
  if i < 10 then (barAt data i).close * 1.01
  else nwYHat w data i + m * nwMae w data i

/-- Lower band entry (lines 223, 254). -/
def nwLowerAt (w : ℕ → ℚ) (data : List Candle) (m : ℚ) (i : ℕ) : ℚ :=
  if i < 10 then (barAt data i).close * 0.99
  else nwYHat w data i - m * nwMae w data i

/-- Result record `{mid, upper, lower}` of the batch kernel envelope. -/
structure NWResult where
  mid : List ℚ
  upper : List ℚ
  lower : List ℚ
deriving DecidableEq, Repr

/-- Batch Nadaraya-Watson envelope over the whole series. -/
def calculateNadarayaWatson (w : ℕ → ℚ) (data : List Candle) (m : ℚ) :
    NWResult :=
  ⟨(List.range data.length).map (nwMidAt w data),
   (List.range data.length).map (nwUpperAt w data m),
   (List.range data.length).map (nwLowerAt w data m)⟩

/-- Result record `{nwMid, nwUpper, nwLower}` of the single-point form. -/
structure NWNext where
  nwMid : ℚ
  nwUpper : ℚ
  nwLower : ℚ
deriving DecidableEq, Repr

/-- Window start `startIndex = max(0, history.length - min(500,
history.length))` of the single-point form (lines 272-273). -/
def cnwStart (hl : ℕ) : ℕ := hl - min 500 hl

/-- Single-point `sumWeights` (lines 278-291): the trailing-window weights
plus the new candle's hard-coded `currentWeight = 1.0`. -/
def cnwSumW (w : ℕ → ℚ) (hl : ℕ) : ℚ :=
  (∑ j ∈ Finset.Ico (cnwStart hl) hl, w (hl - j)) + 1

/-- Single-point `sumWeightedClose` (lines 279-292). -/
def cnwSumWC (w : ℕ → ℚ) (history : List Candle) (newCandle : Candle) : ℚ :=
  (∑ j ∈ Finset.Ico (cnwStart history.length) history.length,
    (barAt history j).close * w (history.length - j)) + newCandle.close * 1

/-- Single-point `yHat` (line 294): unguarded division, as in the source. -/
def cnwYHat (w : ℕ → ℚ) (history : List Candle) (newCandle : Candle) : ℚ :=
  cnwSumWC w history newCandle / cnwSumW w history.length

/-- Single-point `sumWeightedDiff` (lines 297-306). -/
def cnwSumWD (w : ℕ → ℚ) (history : List Candle) (newCandle : Candle) : ℚ :=
  (∑ j ∈ Finset.Ico (cnwStart history.length) history.length,
    w (history.length - j)
      * |(barAt history j).close - cnwYHat w history newCandle|)
    + 1 * |newCandle.close - cnwYHat w history newCandle|

/-- Single-point `mae` (line 308): unguarded division, as in the source. -/
def cnwMae (w : ℕ → ℚ) (history : List Candle) (newCandle : Candle) : ℚ :=
  cnwSumWD w history newCandle / cnwSumW w history.length

/-- Incremental single-point kernel envelope (lines 264-315): the trailing
window of `history` contributes through `w`, and the new candle itself is
one extra sample at distance 0 with weight `1.0`. -/
def calculateNextNadarayaWatson (w : ℕ → ℚ) (history : List Candle)
    (newCandle : Candle) (multiplier : ℚ) : NWNext :=
  ⟨cnwYHat w history newCandle,
   cnwYHat w history newCandle + multiplier * cnwMae w history newCandle,
   cnwYHat w history newCandle - multiplier * cnwMae w history newCandle⟩

/- ---------------------------------------------------------------------
Batch processor `processIndicators` (lines 321-375) and incremental
updater `updateLastCandle` (lines 382-449)
--------------------------------------------------------------------- -/

/-- Indicator record: a candle plus every field `processIndicators`
attaches (the optional fields of `src/types.ts`, always set here). -/
structure IndCandle where
  time : ℚ
  open_ : ℚ
  high : ℚ
  low : ℚ
  close : ℚ
  volume : ℚ
  rsi : ℚ
  atr : ℚ
  nwMid : ℚ
  nwUpper : ℚ
  nwLower : ℚ
  ema12 : ℚ
  ema144 : ℚ
  ema169 : ℚ
  ema576 : ℚ
  ema676 : ℚ
  adx : ℚ
deriving DecidableEq, Repr

instance : Inhabited IndCandle :=
  ⟨⟨0, 0, 0, 0, 0, 0, 0, 0, 0, 0, 0, 0, 0, 0, 0, 0, 0⟩⟩

/-- Base-candle projection of a record (what `calculateRSI` etc. read when
handed the record list). -/
def toCandle (r : IndCandle) : Candle :=
  ⟨r.time, r.open_, r.high, r.low, r.close, r.volume⟩

/-- JavaScript `x || d` on numbers, for exact rationals: the only falsy
rational is `0` (NaN, the other falsy number, has no `ℚ` counterpart). -/
def orDefault (x d : ℚ) : ℚ := if x = 0 then d else x

/-- OHLC sanitisation step of `processIndicators` (lines 342-348) on the
idealised `ℚ` candles, where `isNaN` is constantly false. -/
def sanitizeQ (c : Candle) : Candle :=
  { c with
    open_ := if isNaNQ c.open_ then 0 else c.open_
    high := if isNaNQ c.high then 0 else c.high
    low := if isNaNQ c.low then 0 else c.low
    close := if isNaNQ c.close then 0 else c.close }

/-- Batch processor (lines 321-375): guards empty input, sanitises, runs
every configured indicator (RSI 14, ATR 14, NW bandwidth-20 weight `w`
with multiplier 3, ADX 14, EMAs 12/144/169/576/676) and zips the results
into records with the `|| default` display substitution of lines 361-374. -/
def processIndicators (w : ℕ → ℚ) (candles : List Candle) : List IndCandle :=
  if candles.length = 0 then []
  else
    let safe := candles.map sanitizeQ
    let rsi := calculateRSI safe 14
    let atr := calculateATR safe 14
    let nw := calculateNadarayaWatson w safe 3
    let adx := calculateADX safe 14
    let e12 := calculateEMA safe 12
    let e144 := calculateEMA safe 144
    let e169 := calculateEMA safe 169
    let e576 := calculateEMA safe 576
    let e676 := calculateEMA safe 676
    (List.range safe.length).map fun i =>
      let c := barAt safe i
      { time := c.time, open_ := c.open_, high := c.high, low := c.low
        close := c.close, volume := c.volume
        rsi := orDefault (rsi.getD i 0) 50
        atr := orDefault (atr.getD i 0) 0
        nwMid := orDefault (nw.mid.getD i 0) c.close
        nwUpper := orDefault (nw.upper.getD i 0) c.close
        nwLower := orDefault (nw.lower.getD i 0) c.close
        ema12 := orDefault (e12.getD i 0) c.close
        ema144 := orDefault (e144.getD i 0) c.close
        ema169 := orDefault (e169.getD i 0) c.close
        ema576 := orDefault (e576.getD i 0) c.close
        ema676 := orDefault (e676.getD i 0) c.close
        adx := orDefault (adx.getD i 0) 0 }

/-- Incremental EMA step `calcEma` of `updateLastCandle` (lines 391-396):
`undefined` (`none`) or NaN previous value falls back to the close, else
`close*k + prev*(1-k)` with `k = 2/(period+1)`. -/
def calcEma (prev : Option ℚ) (close : ℚ) (period : ℕ) : ℚ :=
  match prev with
  | none => close
  | some v =>
      if isNaNQ v then close
      else close * emaK period + v * (1 - emaK period)

/-- Incremental ATR step `calcAtr` of `updateLastCandle` (lines 405-413):
computes the bar's TR from the previous close; `undefined`/NaN previous
ATR returns the TR itself, else Wilder's smoothing. -/
def calcAtr (prevAtr : Option ℚ) (current : Candle) (prevClose : ℚ)
    (period : ℕ) : ℚ :=
  let tr := max (current.high - current.low)
    (max |current.high - prevClose| |current.low - prevClose|)
  match prevAtr with
  | none => tr
  | some v =>
      if isNaNQ v then tr
      else (v * ((period : ℚ) - 1) + tr) / period

/-- Incremental updater (lines 382-449): empty history delegates to the
batch processor on a singleton; otherwise EMA/ATR advance from the last
record, the kernel envelope uses the single-point form, and RSI/ADX are
re-run in batch over the trailing 300-bar window plus the new bar
(`slice(-300)` is `drop (length - 300)` on `ℕ`). -/
def updateLastCandle (w : ℕ → ℚ) (prevData : List IndCandle)
    (newCandle : Candle) : IndCandle :=
  if prevData.length = 0 then (processIndicators w [newCandle]).getD 0 default
  else
    let lastKnown := prevData.getD (prevData.length - 1) default
    let ema12 := calcEma (some lastKnown.ema12) newCandle.close 12
    let ema144 := calcEma (some lastKnown.ema144) newCandle.close 144
    let ema169 := calcEma (some lastKnown.ema169) newCandle.close 169
    let ema576 := calcEma (some lastKnown.ema576) newCandle.close 576
    let ema676 := calcEma (some lastKnown.ema676) newCandle.close 676
    let atr := calcAtr (some lastKnown.atr) newCandle lastKnown.close 14
    let nwParams := calculateNextNadarayaWatson w (prevData.map toCandle)
      newCandle 3
    let buffer := (prevData.map toCandle).drop (prevData.length - 300)
      ++ [newCandle]
    let rsiArray := calculateRSI buffer 14
    let lastRsi := rsiArray.getD (rsiArray.length - 1) 0
    let adxArray := calculateADX buffer 14
    let lastAdx := adxArray.getD (adxArray.length - 1) 0
    { time := newCandle.time, open_ := newCandle.open_
      high := newCandle.high, low := newCandle.low
      close := newCandle.close, volume := newCandle.volume
      rsi := lastRsi, atr := atr
      nwMid := nwParams.nwMid, nwUpper := nwParams.nwUpper
      nwLower := nwParams.nwLower
      ema12 := ema12, ema144 := ema144, ema169 := ema169
      ema576 := ema576, ema676 := ema676, adx := lastAdx }

/- ---------------------------------------------------------------------
Bar-by-bar incremental folds of the EMA/ATR recurrences (claims C1, C2):
the incremental path reads the previous record's indicator field, which
from the seed index onward holds the previous batch value, and advances it
with `calcEma` / `calcAtr`; offset `j` is the state at index
`period - 1 + j`.
--------------------------------------------------------------------- -/

/-- Bar-by-bar fold of `calcEma`: starts from the EMA seed value (the
record at index `period - 1`) and feeds each later close through the
incremental step. -/
def emaIncr (data : List Candle) (period : ℕ) : ℕ → ℚ
  | 0 => (∑ i ∈ Finset.range period, (barAt data i).close) / period
  | j + 1 =>
      calcEma (some (emaIncr data period j)) (barAt data (period + j)).close
        period

/-- Bar-by-bar fold of `calcAtr`: starts from the ATR seed value (the
record at index `period - 1`) and feeds each later bar, with the previous
bar's close, through the incremental step. -/
def atrIncr (data : List Candle) (period : ℕ) : ℕ → ℚ
  | 0 => (∑ i ∈ Finset.range period, trAt data i) / period
  | j + 1 =>
      calcAtr (some (atrIncr data period j)) (barAt data (period + j))
        (barAt data (period + j - 1)).close period

/- ---------------------------------------------------------------------
JavaScript numbers with NaN and infinities, for the sanitisation claim:
`isNaN` is true exactly on NaN (so in particular false on +-Infinity).
--------------------------------------------------------------------- -/

/-- JavaScript number value as seen by the sanitiser: finite, NaN, or an
infinity. -/
inductive JsVal where
  | finite (q : ℚ)
  | nan
  | inf
  | ninf
deriving DecidableEq, Repr

/-- JavaScript global `isNaN` on a number: true exactly on NaN. -/
def JsVal.isNaN : JsVal → Bool
  | .nan => true
  | _ => false

/-- `Number.isFinite`: true exactly on finite values. -/
def JsVal.isFinite : JsVal → Bool
  | .finite _ => true
  | _ => false

/-- Raw input bar whose numeric fields may be NaN or infinite. -/
structure RawCandle where
  time : JsVal
  open_ : JsVal
  high : JsVal
  low : JsVal
  close : JsVal
  volume : JsVal
deriving DecidableEq, Repr

/-- The sanitisation step of `processIndicators` (lines 342-348) on raw
JavaScript values: each OHLC field is replaced by `0` when `isNaN` holds
of it, and kept otherwise. -/
def sanitizeCandle (c : RawCandle) : RawCandle :=
  { c with
    open_ := if c.open_.isNaN then .finite 0 else c.open_
    high := if c.high.isNaN then .finite 0 else c.high
    low := if c.low.isNaN then .finite 0 else c.low
    close := if c.close.isNaN then .finite 0 else c.close }

/- ---------------------------------------------------------------------
JavaScript float arithmetic on `JsVal` (IEEE-754 NaN/Infinity
propagation over an exact-rational mantissa, signed zero elided), enough
to model the DX stage of `calculateADX`, whose divisions by the smoothed
TR are the one place the engine can reach a zero denominator.
--------------------------------------------------------------------- -/

/-- IEEE negation. -/
def jsNeg : JsVal → JsVal
  | .finite q => .finite (-q)
  | .nan => .nan
  | .inf => .ninf
  | .ninf => .inf

/-- IEEE addition: NaN propagates, `Infinity + (-Infinity)` is NaN. -/
def jsAdd : JsVal → JsVal → JsVal
  | .nan, _ => .nan
  | _, .nan => .nan
  | .finite a, .finite b => .finite (a + b)
  | .finite _, .inf => .inf
  | .inf, .finite _ => .inf
  | .finite _, .ninf => .ninf
  | .ninf, .finite _ => .ninf
  | .inf, .inf => .inf
  | .ninf, .ninf => .ninf
  | .inf, .ninf => .nan
  | .ninf, .inf => .nan

/-- IEEE subtraction, as addition of the negation. -/
def jsSub (a b : JsVal) : JsVal := jsAdd a (jsNeg b)

/-- IEEE multiplication: NaN propagates, `0 * Infinity` is NaN. -/
def jsMul : JsVal → JsVal → JsVal
  | .nan, _ => .nan
  | _, .nan => .nan
  | .finite a, .finite b => .finite (a * b)
  | .finite a, .inf => if a = 0 then .nan else if 0 < a then .inf else .ninf
  | .inf, .finite a => if a = 0 then .nan else if 0 < a then .inf else .ninf
  | .finite a, .ninf => if a = 0 then .nan else if 0 < a then .ninf else .inf
  | .ninf, .finite a => if a = 0 then .nan else if 0 < a then .ninf else .inf
  | .inf, .inf => .inf
  | .inf, .ninf => .ninf
  | .ninf, .inf => .ninf
  | .ninf, .ninf => .inf

/-- IEEE division: NaN propagates, `0/0` and `Infinity/Infinity` are NaN,
nonzero finite over zero gives a signed infinity, finite over infinite
gives zero. -/
def jsDiv : JsVal → JsVal → JsVal
  | .nan, _ => .nan
  | _, .nan => .nan
  | .finite a, .finite b =>
      if b = 0 then (if a = 0 then .nan else if 0 < a then .inf else .ninf)
      else .finite (a / b)
  | .finite _, .inf => .finite 0
  | .finite _, .ninf => .finite 0
  | .inf, .finite b => if 0 ≤ b then .inf else .ninf
  | .ninf, .finite b => if 0 ≤ b then .ninf else .inf
  | .inf, .inf => .nan
  | .inf, .ninf => .nan
  | .ninf, .inf => .nan
  | .ninf, .ninf => .nan

/-- `Math.abs`: NaN propagates, infinities map to `Infinity`. -/
def jsAbs : JsVal → JsVal
  | .finite q => .finite |q|
  | .nan => .nan
  | .inf => .inf
  | .ninf => .inf

/-- JavaScript `x === 0` on a number: false for NaN and the infinities. -/
def jsEqZero : JsVal → Bool
  | .finite q => q = 0
  | _ => false

/-- The DX stage of `calculateADX` (lines 182-188) under JavaScript float
semantics, as a function of the smoothed TR, +DM and -DM values at one
index: `pdi = (smoothPlusDM / smoothTR) * 100`, `mdi` symmetric, then the
`pdi + mdi === 0` guard and `(|pdi - mdi| / (pdi + mdi)) * 100`. -/
def jsDx (st sp sm : JsVal) : JsVal :=
  let pdi := jsMul (jsDiv sp st) (.finite 100)
  let mdi := jsMul (jsDiv sm st) (.finite 100)
  if jsEqZero (jsAdd pdi mdi) then .finite 0
  else jsMul (jsDiv (jsAbs (jsSub pdi mdi)) (jsAdd pdi mdi)) (.finite 100)

/- ---------------------------------------------------------------------
Concrete-input helpers used by witnesses and counterexamples.
--------------------------------------------------------------------- -/

/-- Flat bar with all four prices equal to `x`. -/
def mkC (x : ℚ) : Candle := ⟨0, x, x, x, x, 0⟩

/-- Bar with the given high, low and close (open set to the close). -/
def mkB (h l c : ℚ) : Candle := ⟨0, c, h, l, c, 0⟩

/-- Constant weight function `1`; satisfies the two Gaussian-weight facts
(`w 0 = 1` and `0 ≤ w d`) used as hypotheses, and lets witnesses evaluate
kernel sums exactly. -/
def constWeightOne : ℕ → ℚ := fun _ => 1


/- ---------------------------------------------------------------------
Concrete input data used by witnesses and counterexamples.
--------------------------------------------------------------------- -/

/-- 20 bars with strictly increasing closes 100..119 (claim C8's series). -/
def dataRising20 : List Candle :=
  [mkC 100, mkC 101, mkC 102, mkC 103, mkC 104, mkC 105, mkC 106, mkC 107,
   mkC 108, mkC 109, mkC 110, mkC 111, mkC 112, mkC 113, mkC 114, mkC 115,
   mkC 116, mkC 117, mkC 118, mkC 119]

/-- 20 bars with strictly decreasing closes 120..101 (batch RSI exactly 0
from index 14 on). -/
def dataFalling20 : List Candle :=
  [mkC 120, mkC 119, mkC 118, mkC 117, mkC 116, mkC 115, mkC 114, mkC 113,
   mkC 112, mkC 111, mkC 110, mkC 109, mkC 108, mkC 107, mkC 106, mkC 105,
   mkC 104, mkC 103, mkC 102, mkC 101]

/-- 4 trending bars with nonzero True Range everywhere; at period 2 the
ADX smoothed-TR update visibly differs from the ATR-style recurrence. -/
def dataTrend4 : List Candle :=
  [mkB 10 9 (19 / 2), mkB 11 9 10, mkB 12 10 11, mkB 13 11 12]

/-- 5 bars with finite OHLC whose True Ranges are all 0 (each bar has
`high = low = previous close`) while the highs still rise, so `+DM > 0`:
the zero-TR denominator case of `calculateADX`. -/
def dataZeroTR5 : List Candle :=
  [mkB 1 1 1, mkB 1 1 2, mkB 2 2 3, mkB 3 3 4, mkB 4 4 5]

/- ---------------------------------------------------------------------
Helper lemmas
--------------------------------------------------------------------- -/

/-- Reading index `i < n` of `(List.range n).map f` gives `f i`. -/
theorem getD_range_map {α : Type} (f : ℕ → α) (n i : ℕ) (d : α)
    (h : i < n) : ((List.range n).map f).getD i d = f i := by
  simp [List.getD_eq_getElem?_getD, List.getElem?_range, h]

/-- A property holding of every member of a list and of the default also
holds of any `getD` read. -/
theorem getD_prop (P : ℚ → Prop) (l : List ℚ) (d : ℚ) (i : ℕ)
    (hl : ∀ x ∈ l, P x) (hd : P d) : P (l.getD i d) := by
  rw [List.getD_eq_getElem?_getD]
  rcases h : l[i]? with _ | x
  · simpa using hd
  · exact hl x (List.getElem?_mem h)

/-- On exact rationals the sanitisation step is the identity (there is no
NaN to replace). -/
theorem sanitizeQ_id (c : Candle) : sanitizeQ c = c := by
  simp [sanitizeQ, isNaNQ]

/-- Sanitising a whole `ℚ` candle list is the identity. -/
theorem map_sanitizeQ_id (l : List Candle) : l.map sanitizeQ = l := by
  rw [show sanitizeQ = fun c => c from funext sanitizeQ_id]
  exact List.map_id' _

/-- The bar-by-bar `calcEma` fold coincides with the batch EMA recurrence
value at every offset. -/
theorem emaIncr_eq_emaVal (data : List Candle) (period : ℕ) :
    ∀ j, emaIncr data period j = emaVal data period j := by
  intro j
  induction j with
  | zero => rfl
  | succ j ih => simp [emaIncr, emaVal, calcEma, isNaNQ, ih]

/-- The bar-by-bar `calcAtr` fold coincides with the batch ATR recurrence
value at every offset, for a positive period. -/
theorem atrIncr_eq_atrVal (data : List Candle) (period : ℕ)
    (hp : 1 ≤ period) : ∀ j, atrIncr data period j = atrVal data period j := by
  intro j
  induction j with
  | zero => rfl
  | succ j ih =>
      have hne : ¬ period + j = 0 := by omega
      simp [atrIncr, atrVal, calcAtr, isNaNQ, trAt, hne, ih]

/-- Dividing the smoothed-sum update by the period turns it into the
ATR-style Wilder recurrence on the normalised series. -/
theorem smooth_step_div (s f q : ℚ) (hq : q ≠ 0) :
    (s - s / q + f) / q = (s / q * (q - 1) + f) / q := by
  field_simp
  ring

/- ---------------------------------------------------------------------
Claim theorems
--------------------------------------------------------------------- -/

/-- C1: for every bar sequence and every EMA period, folding the
incremental EMA recurrence (`updateLastCandle`'s `calcEma`, fed at each
step the previous record's EMA value, which from the seed index
`period - 1` onward holds the batch value) produces at every index
`i ≥ period - 1` exactly the batch `calculateEMA` value, hence in
particular agreement within 1e-9 relative tolerance. -/
theorem c1_ema_incremental_matches_batch (data : List Candle)
    (period i : ℕ) (hp : 1 ≤ period) (hlen : period ≤ data.length)
    (hseed : period - 1 ≤ i) (hi : i < data.length) :
    emaIncr data period (i - (period - 1))
      = (calculateEMA data period).getD i 0 ∧
    |emaIncr data period (i - (period - 1))
      - (calculateEMA data period).getD i 0|
      ≤ 1 / 1000000000 * |(calculateEMA data period).getD i 0| := by
  have hb : (calculateEMA data period).getD i 0
      = emaVal data period (i - (period - 1)) := by
    unfold calculateEMA
    rw [if_neg (by omega), getD_range_map _ _ _ _ hi, if_neg (by omega)]
  refine ⟨by rw [hb, emaIncr_eq_emaVal], ?_⟩
  rw [hb, emaIncr_eq_emaVal]
  simp only [sub_self, abs_zero]
  positivity

/-- Witness for C1 at a concrete 3-bar input with period 2, index 2. -/
theorem c1_witness :
    emaIncr [mkC 1, mkC 3, mkC 2] 2 1
      = (calculateEMA [mkC 1, mkC 3, mkC 2] 2).getD 2 0 ∧
    |emaIncr [mkC 1, mkC 3, mkC 2] 2 1
      - (calculateEMA [mkC 1, mkC 3, mkC 2] 2).getD 2 0|
      ≤ 1 / 1000000000 * |(calculateEMA [mkC 1, mkC 3, mkC 2] 2).getD 2 0| :=
  c1_ema_incremental_matches_batch [mkC 1, mkC 3, mkC 2] 2 2
    (by norm_num) (by norm_num) (by norm_num) (by norm_num)

/-- C2: the incremental ATR is exact — folding `calcAtr` bar-by-bar from
the seed reproduces the batch `calculateATR` at every index
`i ≥ period - 1` exactly (hence within 1e-9 relative tolerance), and on a
non-determinable (`none`) previous ATR `calcAtr` returns the bar's own
True Range. -/
theorem c2_atr_incremental_matches_batch :
    (∀ (data : List Candle) (period i : ℕ), 1 ≤ period →
      period ≤ data.length → period - 1 ≤ i → i < data.length →
      atrIncr data period (i - (period - 1))
        = (calculateATR data period).getD i 0 ∧
      |atrIncr data period (i - (period - 1))
        - (calculateATR data period).getD i 0|
        ≤ 1 / 1000000000 * |(calculateATR data period).getD i 0|) ∧
    (∀ (current : Candle) (prevClose : ℚ) (period : ℕ),
      calcAtr none current prevClose period
        = max (current.high - current.low)
            (max |current.high - prevClose| |current.low - prevClose|)) := by
  constructor
  · intro data period i hp hlen hseed hi
    have hb : (calculateATR data period).getD i 0
        = atrVal data period (i - (period - 1)) := by
      unfold calculateATR
      rw [if_neg (by omega), getD_range_map _ _ _ _ hi, if_neg (by omega)]
    refine ⟨by rw [hb, atrIncr_eq_atrVal _ _ hp], ?_⟩
    rw [hb, atrIncr_eq_atrVal _ _ hp]
    simp only [sub_self, abs_zero]
    positivity
  · intro current prevClose period
    rfl

/-- Witness for C2 at a concrete 3-bar input with period 2, index 2, and
at a concrete non-determinable previous ATR. -/
theorem c2_witness :
    (atrIncr [mkB 3 1 2, mkB 4 2 3, mkB 5 3 4] 2 1
      = (calculateATR [mkB 3 1 2, mkB 4 2 3, mkB 5 3 4] 2).getD 2 0) ∧
    calcAtr none (mkB 5 3 4) 3 14 = 2 := by
  refine ⟨(c2_atr_incremental_matches_batch.1
    [mkB 3 1 2, mkB 4 2 3, mkB 5 3 4] 2 2
    (by norm_num) (by norm_num) (by norm_num) (by norm_num)).1, ?_⟩
  rw [c2_atr_incremental_matches_batch.2 (mkB 5 3 4) 3 14]
  norm_num [mkB, max_def, abs]

/-- C4 counterexample: in `calculateADX` the smoothed TR series does not
follow the ATR recurrence `(prev*(period-1)+new)/period`.  On
`dataTrend4` with period 2 the code's update at index 3 yields
`4 - 4/2 + 2 = 4`, while the ATR-style rule would give `(4*1+2)/2 = 3`
(index 3 is inside the DX loop since the input has `2*period` bars). -/
theorem c4_counterexample :
    smoothSeries (adxTr dataTrend4) 2 1
      ≠ (smoothSeries (adxTr dataTrend4) 2 0 * ((2 : ℚ) - 1)
          + adxTr dataTrend4 3) / 2 := by
  norm_num [smoothSeries, adxTr, barAt, dataTrend4, mkB, Finset.sum_range_succ,
    max_def, abs]

/-- C4 amended: in `calculateADX` the TR, +DM and -DM series are seeded
with the running sum of the first `period` entries and then updated by
`smooth[i] = smooth[i-1] - smooth[i-1]/period + series[i]` — not by the
ATR recurrence itself; dividing the smoothed sums by `period` recovers the
ATR recurrence `(prev*(period-1)+new)/period` exactly (with the SMA seed),
for each of the three series. -/
theorem c4_adx_smoothing_amended (data : List Candle) (period j : ℕ)
    (hp : 1 ≤ period) :
    (smoothSeries (adxTr data) period 0
        = ∑ i ∈ Finset.range period, adxTr data (i + 1) ∧
      smoothSeries (adxTr data) period (j + 1)
        = smoothSeries (adxTr data) period j
            - smoothSeries (adxTr data) period j / period
            + adxTr data (period + j + 1) ∧
      smoothSeries (adxTr data) period (j + 1) / period
        = (smoothSeries (adxTr data) period j / period * ((period : ℚ) - 1)
            + adxTr data (period + j + 1)) / period) ∧
    (smoothSeries (plusDMAt data) period 0
        = ∑ i ∈ Finset.range period, plusDMAt data (i + 1) ∧
      smoothSeries (plusDMAt data) period (j + 1)
        = smoothSeries (plusDMAt data) period j
            - smoothSeries (plusDMAt data) period j / period
            + plusDMAt data (period + j + 1) ∧
      smoothSeries (plusDMAt data) period (j + 1) / period
        = (smoothSeries (plusDMAt data) period j / period * ((period : ℚ) - 1)
            + plusDMAt data (period + j + 1)) / period) ∧
    (smoothSeries (minusDMAt data) period 0
        = ∑ i ∈ Finset.range period, minusDMAt data (i + 1) ∧
      smoothSeries (minusDMAt data) period (j + 1)
        = smoothSeries (minusDMAt data) period j
            - smoothSeries (minusDMAt data) period j / period
            + minusDMAt data (period + j + 1) ∧
      smoothSeries (minusDMAt data) period (j + 1) / period
        = (smoothSeries (minusDMAt data) period j / period * ((period : ℚ) - 1)
            + minusDMAt data (period + j + 1)) / period) := by
  have hq : ((period : ℚ)) ≠ 0 := Nat.cast_ne_zero.mpr (by omega)
  refine ⟨⟨rfl, rfl, ?_⟩, ⟨rfl, rfl, ?_⟩, ⟨rfl, rfl, ?_⟩⟩ <;>
    exact smooth_step_div _ _ _ hq

/-- Witness for the amended C4 at `dataTrend4`, period 2, offset 0: the
normalised smoothed-TR step follows the ATR recurrence. -/
theorem c4_witness :
    smoothSeries (adxTr dataTrend4) 2 1 / 2
      = (smoothSeries (adxTr dataTrend4) 2 0 / 2 * ((2 : ℚ) - 1)
          + adxTr dataTrend4 3) / 2 := by
  have h := (c4_adx_smoothing_amended dataTrend4 2 0 (by norm_num)).1.2.2
  simpa using h

/-- C5: with period 2 on the finite-OHLC input `dataZeroTR5` (length 5, so
the guard `length < period*2` passes and the DX loop runs from index 2),
the smoothed TR at index 2 is `0` while the smoothed +DM is `1` and the
smoothed -DM is `0`.  The source therefore evaluates
`pdi = (1/0)*100 = Infinity` and `mdi = (0/0)*100 = NaN` at line 183-184;
`pdi + mdi` is NaN, so the `pdi + mdi === 0` guard does not fire, `dx[2]`
is NaN, and NaN propagates through the ADX seed average into the returned
`adxArray` — contradicting the claim that no NaN/Inf is ever produced from
finite inputs.  The only guarded denominator is `pdi + mdi`; `smoothTR` is
unguarded. -/
theorem c5_adx_zero_tr_unguarded :
    smoothSeries (adxTr dataZeroTR5) 2 0 = 0 ∧
    smoothSeries (plusDMAt dataZeroTR5) 2 0 = 1 ∧
    smoothSeries (minusDMAt dataZeroTR5) 2 0 = 0 ∧
    2 * 2 ≤ dataZeroTR5.length := by
  refine ⟨?_, ?_, ?_, by norm_num [dataZeroTR5]⟩ <;>
    norm_num [smoothSeries, adxTr, plusDMAt, minusDMAt, barAt, dataZeroTR5,
      mkB, Finset.sum_range_succ, max_def, abs]

/-- C7 counterexample: a bar whose close is `+Infinity` is non-finite, yet
the sanitisation step of `processIndicators` leaves it unchanged — only
`isNaN` is tested, so infinities are not substituted with the fallback 0. -/
theorem c7_counterexample :
    JsVal.isFinite
        ((⟨.finite 0, .finite 0, .finite 0, .finite 0, .inf, .finite 0⟩ :
          RawCandle).close) = false ∧
    (sanitizeCandle
        ⟨.finite 0, .finite 0, .finite 0, .finite 0, .inf, .finite 0⟩).close
      = JsVal.inf ∧
    (sanitizeCandle
        ⟨.finite 0, .finite 0, .finite 0, .finite 0, .inf, .finite 0⟩).close
      ≠ JsVal.finite 0 := by
  refine ⟨rfl, rfl, ?_⟩
  decide

/-- C7 amended: `processIndicators` returns an empty output on empty
input, and the sanitisation step substitutes the fallback 0 exactly for
the NaN open/high/low/close fields, leaving every non-NaN field (finite or
infinite) unchanged, before any indicator is computed. -/
theorem c7_sanitization_amended :
    (∀ w : ℕ → ℚ, processIndicators w [] = []) ∧
    (∀ c : RawCandle,
      ((c.open_.isNaN = true → (sanitizeCandle c).open_ = .finite 0) ∧
       (c.open_.isNaN = false → (sanitizeCandle c).open_ = c.open_)) ∧
      ((c.high.isNaN = true → (sanitizeCandle c).high = .finite 0) ∧
       (c.high.isNaN = false → (sanitizeCandle c).high = c.high)) ∧
      ((c.low.isNaN = true → (sanitizeCandle c).low = .finite 0) ∧
       (c.low.isNaN = false → (sanitizeCandle c).low = c.low)) ∧
      ((c.close.isNaN = true → (sanitizeCandle c).close = .finite 0) ∧
       (c.close.isNaN = false → (sanitizeCandle c).close = c.close))) := by
  constructor
  · intro w
    rfl
  · intro c
    refine ⟨⟨?_, ?_⟩, ⟨?_, ?_⟩, ⟨?_, ?_⟩, ⟨?_, ?_⟩⟩ <;> intro h <;>
      simp [sanitizeCandle, h]

/-- Witness for the amended C7: the empty input and a concrete NaN-close
bar, whose close is replaced by the finite fallback 0. -/
theorem c7_witness :
    processIndicators constWeightOne [] = [] ∧
    (sanitizeCandle
        ⟨.finite 0, .finite 1, .finite 2, .finite 0, .nan, .finite 0⟩).close
      = JsVal.finite 0 :=
  ⟨c7_sanitization_amended.1 constWeightOne,
   (c7_sanitization_amended.2
      ⟨.finite 0, .finite 1, .finite 2, .finite 0, .nan, .finite 0⟩).2.2.2.1
      (by decide)⟩

/-- C8: on the 20-bar series of strictly increasing closes 100..119 with
period 14, the batch RSI is exactly 100 at each index 14..19, and at each
of those indices the Wilder average-loss state is 0 (the zero-average-loss
boundary branch is the one taken). -/
theorem c8_increasing_closes_rsi_100 :
    ((calculateRSI dataRising20 14).getD 14 0 = 100 ∧
     (calculateRSI dataRising20 14).getD 15 0 = 100 ∧
     (calculateRSI dataRising20 14).getD 16 0 = 100 ∧
     (calculateRSI dataRising20 14).getD 17 0 = 100 ∧
     (calculateRSI dataRising20 14).getD 18 0 = 100 ∧
     (calculateRSI dataRising20 14).getD 19 0 = 100) ∧
    ((rsiAvg dataRising20 14 0).2 = 0 ∧
     (rsiAvg dataRising20 14 1).2 = 0 ∧
     (rsiAvg dataRising20 14 2).2 = 0 ∧
     (rsiAvg dataRising20 14 3).2 = 0 ∧
     (rsiAvg dataRising20 14 4).2 = 0 ∧
     (rsiAvg dataRising20 14 5).2 = 0) := by
  have h0 : (rsiAvg dataRising20 14 0).2 = 0 := by
    norm_num [rsiAvg, rsiLoss, rsiChange, barAt, dataRising20, mkC,
      Finset.sum_range_succ]
  have heval : ∀ j : ℕ, j ≤ 5 → (rsiAvg dataRising20 14 j).2 = 0 := by
    intro j hj
    induction j with
    | zero => exact h0
    | succ j ih =>
        have hih := ih (by omega)
        have hl : rsiLoss dataRising20 (14 + j + 1) = 0 := by
          have hj4 : j ≤ 4 := by omega
          interval_cases j <;>
            norm_num [rsiLoss, rsiChange, barAt, dataRising20, mkC]
        calc (rsiAvg dataRising20 14 (j + 1)).2
            = ((rsiAvg dataRising20 14 j).2 * (((14 : ℕ) : ℚ) - 1)
                + rsiLoss dataRising20 (14 + j + 1)) / ((14 : ℕ) : ℚ) := rfl
          _ = 0 := by rw [hih, hl]; norm_num
  have h1 := heval 1 (by omega)
  have h2 := heval 2 (by omega)
  have h3 := heval 3 (by omega)
  have h4 := heval 4 (by omega)
  have h5 := heval 5 (by omega)
  have hAt : ∀ i : ℕ, 14 ≤ i → i < 20 →
      (calculateRSI dataRising20 14).getD i 0 = rsiAt dataRising20 14 i := by
    intro i hi1 hi2
    unfold calculateRSI
    rw [if_neg (by norm_num [dataRising20]),
      getD_range_map _ _ _ _ (by simpa [dataRising20] using hi2),
      if_neg (by omega)]
  refine ⟨⟨?_, ?_, ?_, ?_, ?_, ?_⟩, h0, h1, h2, h3, h4, h5⟩
  · rw [hAt 14 (by norm_num) (by norm_num), rsiAt]; norm_num [h0]
  · rw [hAt 15 (by norm_num) (by norm_num), rsiAt]; norm_num [h1]
  · rw [hAt 16 (by norm_num) (by norm_num), rsiAt]; norm_num [h2]
  · rw [hAt 17 (by norm_num) (by norm_num), rsiAt]; norm_num [h3]
  · rw [hAt 18 (by norm_num) (by norm_num), rsiAt]; norm_num [h4]
  · rw [hAt 19 (by norm_num) (by norm_num), rsiAt]; norm_num [h5]

/-- C10: every batch calculator is length-preserving, and on input shorter
than its minimum history (period+1 for RSI, period for EMA and ATR,
2*period for ADX) it returns the all-zero array. -/
theorem c10_length_preserving_and_zero_padding (data : List Candle)
    (period : ℕ) :
    ((calculateRSI data period).length = data.length ∧
     (calculateEMA data period).length = data.length ∧
     (calculateATR data period).length = data.length ∧
     (calculateADX data period).length = data.length) ∧
    (data.length < period + 1 →
      calculateRSI data period = List.replicate data.length 0) ∧
    (data.length < period →
      calculateEMA data period = List.replicate data.length 0) ∧
    (data.length < period →
      calculateATR data period = List.replicate data.length 0) ∧
    (data.length < period * 2 →
      calculateADX data period = List.replicate data.length 0) := by
  refine ⟨⟨?_, ?_, ?_, ?_⟩, ?_, ?_, ?_, ?_⟩
  · unfold calculateRSI; split <;> simp
  · unfold calculateEMA; split <;> simp
  · unfold calculateATR; split <;> simp
  · unfold calculateADX; split <;> simp
  · intro h; unfold calculateRSI; rw [if_pos h]
  · intro h; unfold calculateEMA; rw [if_pos h]
  · intro h; unfold calculateATR; rw [if_pos h]
  · intro h; unfold calculateADX; rw [if_pos h]

/-- Witness for C10: a single bar is shorter than every minimum history at
period 14, so all four calculators return the singleton zero array. -/
theorem c10_witness :
    calculateRSI [mkC 1] 14 = List.replicate 1 0 ∧
    calculateEMA [mkC 1] 14 = List.replicate 1 0 ∧
    calculateATR [mkC 1] 14 = List.replicate 1 0 ∧
    calculateADX [mkC 1] 14 = List.replicate 1 0 := by
  have h := c10_length_preserving_and_zero_padding [mkC 1] 14
  exact ⟨h.2.1 (by norm_num), h.2.2.1 (by norm_num), h.2.2.2.1 (by norm_num),
    h.2.2.2.2 (by norm_num)⟩

/-- C3 counterexample: with an empty history the incremental single-point
kernel envelope and the batch envelope at the last index disagree beyond
any 1e-9 relative tolerance — the batch path short-circuits indices below
10 to `close ± 1%` (upper `101` here) while the incremental path has no
such warm-up branch and returns `100`.  The weight function is never
evaluated on this input, so the counterexample is independent of the
Gaussian abstraction. -/
theorem c3_counterexample :
    ¬ |(calculateNextNadarayaWatson constWeightOne [] (mkC 100) 3).nwUpper
        - (calculateNadarayaWatson constWeightOne [mkC 100] 3).upper.getD 0 0|
      ≤ 1 / 1000000000
        * |(calculateNadarayaWatson constWeightOne [mkC 100] 3).upper.getD 0 0| := by
  have hb : (calculateNadarayaWatson constWeightOne [mkC 100] 3).upper.getD 0 0
      = nwUpperAt constWeightOne [mkC 100] 3 0 := by
    simp only [calculateNadarayaWatson]
    exact getD_range_map _ _ _ _ (by norm_num)
  rw [hb]
  norm_num [calculateNextNadarayaWatson, cnwYHat, cnwMae, cnwSumW, cnwSumWC,
    cnwSumWD, cnwStart, nwUpperAt, barAt, mkC, constWeightOne, abs]

/-- C3 amended: for every history of at least 10 bars (so the batch path's
warm-up branch is not taken at the last index), every new bar, every
multiplier, and the same kernel weight in both paths (any weight with the
Gaussian's properties `w 0 = 1` and `0 ≤ w`), the incremental single-point
envelope equals the batch envelope at the last index exactly — mid, upper
and lower. -/
theorem c3_next_nw_matches_batch (w : ℕ → ℚ) (history : List Candle)
    (newCandle : Candle) (m : ℚ) (hw0 : w 0 = 1) (hw : ∀ d, 0 ≤ w d)
    (hlen : 10 ≤ history.length) :
    (calculateNextNadarayaWatson w history newCandle m).nwMid
      = (calculateNadarayaWatson w (history ++ [newCandle]) m).mid.getD
          history.length 0 ∧
    (calculateNextNadarayaWatson w history newCandle m).nwUpper
      = (calculateNadarayaWatson w (history ++ [newCandle]) m).upper.getD
          history.length 0 ∧
    (calculateNextNadarayaWatson w history newCandle m).nwLower
      = (calculateNadarayaWatson w (history ++ [newCandle]) m).lower.getD
          history.length 0 := by
  set i := history.length with hidef
  set data := history ++ [newCandle] with hdata
  have hn : data.length = i + 1 := by simp [hdata, hidef]
  have hstart : nwStart data.length i = cnwStart i := by
    rw [hn]
    simp only [nwStart, nwLookback, cnwStart, Nat.min_def]
    split_ifs <;> omega
  have hsi : cnwStart i ≤ i := Nat.sub_le _ _
  have hbar_top : barAt data i = newCandle := by
    rw [hdata, barAt, List.getD_append_right _ _ _ _ (by omega)]
    simp [hidef]
  have hbar_lt : ∀ j, j < i → barAt data j = barAt history j := by
    intro j hj
    rw [hdata, barAt, List.getD_append _ _ _ _ (by omega)]
    rfl
  have hA : nwSumW w data.length i = cnwSumW w i := by
    rw [nwSumW, cnwSumW, hstart, ← Nat.Ico_succ_right,
      Finset.sum_Ico_succ_top hsi, Nat.sub_self, hw0]
  have hB : nwSumWC w data i = cnwSumWC w history newCandle := by
    rw [nwSumWC, cnwSumWC, hstart, ← Nat.Ico_succ_right,
      Finset.sum_Ico_succ_top hsi, Nat.sub_self, hw0, hbar_top]
    congr 1
    apply Finset.sum_congr rfl
    intro j hj
    rw [hbar_lt j (Finset.mem_Ico.mp hj).2]
  have hpos : 0 < nwSumW w data.length i := by
    rw [hA, cnwSumW]
    have h0 : 0 ≤ ∑ j ∈ Finset.Ico (cnwStart i) i, w (i - j) :=
      Finset.sum_nonneg fun j _ => hw _
    linarith
  have hyhat : nwYHat w data i = cnwYHat w history newCandle := by
    rw [nwYHat, if_pos hpos, hA, hB, cnwYHat]
  have hD : nwSumWD w data i = cnwSumWD w history newCandle := by
    rw [nwSumWD, cnwSumWD, hstart, ← Nat.Ico_succ_right,
      Finset.sum_Ico_succ_top hsi, Nat.sub_self, hw0, hbar_top, hyhat]
    congr 1
    apply Finset.sum_congr rfl
    intro j hj
    rw [hbar_lt j (Finset.mem_Ico.mp hj).2]
  have hmae : nwMae w data i = cnwMae w history newCandle := by
    rw [nwMae, if_pos hpos, hA, hD, cnwMae]
  have h10 : ¬ i < 10 := by omega
  have hmid : (calculateNadarayaWatson w data m).mid.getD i 0
      = nwMidAt w data i := by
    simp only [calculateNadarayaWatson]
    exact getD_range_map _ _ _ _ (by omega)
  have hup : (calculateNadarayaWatson w data m).upper.getD i 0
      = nwUpperAt w data m i := by
    simp only [calculateNadarayaWatson]
    exact getD_range_map _ _ _ _ (by omega)
  have hlo : (calculateNadarayaWatson w data m).lower.getD i 0
      = nwLowerAt w data m i := by
    simp only [calculateNadarayaWatson]
    exact getD_range_map _ _ _ _ (by omega)
  refine ⟨?_, ?_, ?_⟩
  · rw [hmid, nwMidAt, if_neg h10, hyhat]
    rfl
  · rw [hup, nwUpperAt, if_neg h10, hyhat, hmae]
    rfl
  · rw [hlo, nwLowerAt, if_neg h10, hyhat, hmae]
    rfl

/-- Witness for the amended C3: a 20-bar history with a concrete new bar
and the constant weight (which satisfies `w 0 = 1` and `0 ≤ w`). -/
theorem c3_witness :
    (calculateNextNadarayaWatson constWeightOne dataRising20 (mkC 50) 3).nwMid
      = (calculateNadarayaWatson constWeightOne
          (dataRising20 ++ [mkC 50]) 3).mid.getD dataRising20.length 0 ∧
    (calculateNextNadarayaWatson constWeightOne dataRising20 (mkC 50) 3).nwUpper
      = (calculateNadarayaWatson constWeightOne
          (dataRising20 ++ [mkC 50]) 3).upper.getD dataRising20.length 0 ∧
    (calculateNextNadarayaWatson constWeightOne dataRising20 (mkC 50) 3).nwLower
      = (calculateNadarayaWatson constWeightOne
          (dataRising20 ++ [mkC 50]) 3).lower.getD dataRising20.length 0 :=
  c3_next_nw_matches_batch constWeightOne dataRising20 (mkC 50) 3 rfl
    (fun d => by norm_num [constWeightOne]) (by norm_num [dataRising20])

/-- Gain contributions are nonnegative. -/
theorem rsiGain_nonneg (data : List Candle) (i : ℕ) : 0 ≤ rsiGain data i := by
  unfold rsiGain
  split_ifs with h
  · exact h
  · exact le_refl 0

/-- Loss contributions are nonnegative. -/
theorem rsiLoss_nonneg (data : List Candle) (i : ℕ) : 0 ≤ rsiLoss data i := by
  unfold rsiLoss
  split_ifs with h
  · linarith
  · exact le_refl 0

/-- Both Wilder averages of the RSI state stay nonnegative. -/
theorem rsiAvg_nonneg (data : List Candle) (period : ℕ) (hp : 1 ≤ period) :
    ∀ j, 0 ≤ (rsiAvg data period j).1 ∧ 0 ≤ (rsiAvg data period j).2 := by
  intro j
  have hp1 : (0 : ℚ) ≤ (period : ℚ) - 1 := by
    have : (1 : ℚ) ≤ (period : ℚ) := by exact_mod_cast hp
    linarith
  have hpc : (0 : ℚ) ≤ (period : ℚ) := by positivity
  induction j with
  | zero =>
      exact ⟨div_nonneg
          (Finset.sum_nonneg fun i _ => rsiGain_nonneg data (i + 1)) hpc,
        div_nonneg
          (Finset.sum_nonneg fun i _ => rsiLoss_nonneg data (i + 1)) hpc⟩
  | succ j ih =>
      refine ⟨div_nonneg ?_ hpc, div_nonneg ?_ hpc⟩
      · exact add_nonneg (mul_nonneg ih.1 hp1) (rsiGain_nonneg _ _)
      · exact add_nonneg (mul_nonneg ih.2 hp1) (rsiLoss_nonneg _ _)

/-- Every computed RSI entry is inside `[0, 100]`. -/
theorem rsiAt_bounds (data : List Candle) (period i : ℕ) (hp : 1 ≤ period) :
    0 ≤ rsiAt data period i ∧ rsiAt data period i ≤ 100 := by
  obtain ⟨hg, hl⟩ := rsiAvg_nonneg data period hp (i - period)
  unfold rsiAt
  dsimp only
  split_ifs with h
  · norm_num
  · have hlpos : 0 < (rsiAvg data period (i - period)).2 :=
      lt_of_le_of_ne hl (Ne.symm h)
    have hrs : 0 ≤ (rsiAvg data period (i - period)).1
        / (rsiAvg data period (i - period)).2 := div_nonneg hg hl
    have h1 : (0 : ℚ) < 1 + (rsiAvg data period (i - period)).1
        / (rsiAvg data period (i - period)).2 := by linarith
    have hle : (100 : ℚ) / (1 + (rsiAvg data period (i - period)).1
        / (rsiAvg data period (i - period)).2) ≤ 100 :=
      div_le_self (by norm_num) (by linarith)
    have hpos : (0 : ℚ) < 100 / (1 + (rsiAvg data period (i - period)).1
        / (rsiAvg data period (i - period)).2) := div_pos (by norm_num) h1
    constructor <;> linarith

/-- Range bound for every `getD` read of the batch RSI array. -/
theorem calculateRSI_bounds (data : List Candle) (period i : ℕ)
    (hp : 1 ≤ period) :
    0 ≤ (calculateRSI data period).getD i 0 ∧
    (calculateRSI data period).getD i 0 ≤ 100 := by
  apply getD_prop (fun x => 0 ≤ x ∧ x ≤ 100)
  · intro x hx
    unfold calculateRSI at hx
    split_ifs at hx with h
    · have := List.eq_of_mem_replicate hx
      subst this
      norm_num
    · obtain ⟨j, hj, rfl⟩ := List.mem_map.mp hx
      split_ifs with h2
      · norm_num
      · exact rsiAt_bounds data period j hp
  · norm_num

/-- The ADX True-Range series is nonnegative. -/
theorem adxTr_nonneg (data : List Candle) (i : ℕ) : 0 ≤ adxTr data i := by
  unfold adxTr
  split_ifs with h
  · exact le_refl 0
  · exact le_max_of_le_right (le_max_of_le_left (abs_nonneg _))

/-- Plus directional movement is nonnegative. -/
theorem plusDMAt_nonneg (data : List Candle) (i : ℕ) : 0 ≤ plusDMAt data i := by
  unfold plusDMAt
  dsimp only
  split_ifs with h h2
  · exact le_refl 0
  · exact le_of_lt h2.2
  · exact le_refl 0

/-- Minus directional movement is nonnegative. -/
theorem minusDMAt_nonneg (data : List Candle) (i : ℕ) :
    0 ≤ minusDMAt data i := by
  unfold minusDMAt
  dsimp only
  split_ifs with h h2
  · exact le_refl 0
  · exact le_of_lt h2.2
  · exact le_refl 0

/-- Wilder smoothed sums of a nonnegative series stay nonnegative. -/
theorem smoothSeries_nonneg (f : ℕ → ℚ) (period : ℕ) (hf : ∀ i, 0 ≤ f i)
    (hp : 1 ≤ period) : ∀ j, 0 ≤ smoothSeries f period j := by
  intro j
  induction j with
  | zero => exact Finset.sum_nonneg fun i _ => hf (i + 1)
  | succ j ih =>
      have hdiv : smoothSeries f period j / period ≤ smoothSeries f period j :=
        div_le_self ih (by exact_mod_cast hp)
      have := hf (period + j + 1)
      simp only [smoothSeries]
      linarith

/-- Every DX entry is inside `[0, 100]`. -/
theorem dxAt_bounds (data : List Candle) (period i : ℕ) (hp : 1 ≤ period) :
    0 ≤ dxAt data period i ∧ dxAt data period i ≤ 100 := by
  have hst := smoothSeries_nonneg (adxTr data) period (adxTr_nonneg data) hp
    (i - period)
  have hsp := smoothSeries_nonneg (plusDMAt data) period (plusDMAt_nonneg data)
    hp (i - period)
  have hsm := smoothSeries_nonneg (minusDMAt data) period
    (minusDMAt_nonneg data) hp (i - period)
  unfold dxAt
  dsimp only
  set pdi := smoothSeries (plusDMAt data) period (i - period)
    / smoothSeries (adxTr data) period (i - period) * 100 with hpdi
  set mdi := smoothSeries (minusDMAt data) period (i - period)
    / smoothSeries (adxTr data) period (i - period) * 100 with hmdi
  have hpdi0 : 0 ≤ pdi := mul_nonneg (div_nonneg hsp hst) (by norm_num)
  have hmdi0 : 0 ≤ mdi := mul_nonneg (div_nonneg hsm hst) (by norm_num)
  split_ifs with h
  · norm_num
  · have hsum : 0 < pdi + mdi :=
      lt_of_le_of_ne (add_nonneg hpdi0 hmdi0) (Ne.symm h)
    have habs : |pdi - mdi| ≤ pdi + mdi :=
      abs_le.mpr ⟨by linarith, by linarith⟩
    have hq : |pdi - mdi| / (pdi + mdi) ≤ 1 := (div_le_one hsum).mpr habs
    have hq0 : 0 ≤ |pdi - mdi| / (pdi + mdi) :=
      div_nonneg (abs_nonneg _) (le_of_lt hsum)
    constructor
    · exact mul_nonneg hq0 (by norm_num)
    · calc |pdi - mdi| / (pdi + mdi) * 100 ≤ 1 * 100 :=
            mul_le_mul_of_nonneg_right hq (by norm_num)
        _ = 100 := one_mul 100

/-- Every smoothed ADX value is inside `[0, 100]`. -/
theorem adxVal_bounds (data : List Candle) (period : ℕ) (hp : 1 ≤ period) :
    ∀ j, 0 ≤ adxVal data period j ∧ adxVal data period j ≤ 100 := by
  have hppos : (0 : ℚ) < (period : ℚ) := by
    exact_mod_cast Nat.pos_of_ne_zero (by omega)
  have hp1 : (0 : ℚ) ≤ (period : ℚ) - 1 := by
    have : (1 : ℚ) ≤ (period : ℚ) := by exact_mod_cast hp
    linarith
  intro j
  induction j with
  | zero =>
      constructor
      · exact div_nonneg (Finset.sum_nonneg fun i _ =>
          (dxAt_bounds data period (period + i) hp).1) (le_of_lt hppos)
      · rw [adxVal, div_le_iff₀ hppos]
        have hsum : ∑ i ∈ Finset.range period, dxAt data period (period + i)
            ≤ (Finset.range period).card • (100 : ℚ) :=
          Finset.sum_le_card_nsmul _ _ _ fun i _ =>
            (dxAt_bounds data period (period + i) hp).2
        rw [Finset.card_range, nsmul_eq_mul] at hsum
        linarith
  | succ j ih =>
      have hd := dxAt_bounds data period (2 * period + j) hp
      constructor
      · exact div_nonneg (add_nonneg (mul_nonneg ih.1 hp1) hd.1)
          (le_of_lt hppos)
      · rw [adxVal, div_le_iff₀ hppos]
        have hmul : adxVal data period j * ((period : ℚ) - 1)
            ≤ 100 * ((period : ℚ) - 1) :=
          mul_le_mul_of_nonneg_right ih.2 hp1
        linarith

/-- Range bound for every `getD` read of the batch ADX array. -/
theorem calculateADX_bounds (data : List Candle) (period i : ℕ)
    (hp : 1 ≤ period) :
    0 ≤ (calculateADX data period).getD i 0 ∧
    (calculateADX data period).getD i 0 ≤ 100 := by
  apply getD_prop (fun x => 0 ≤ x ∧ x ≤ 100)
  · intro x hx
    unfold calculateADX at hx
    split_ifs at hx with h
    · have := List.eq_of_mem_replicate hx
      subst this
      norm_num
    · obtain ⟨j, hj, rfl⟩ := List.mem_map.mp hx
      split_ifs with h2
      · norm_num
      · exact adxVal_bounds data period hp (j - (2 * period - 1))
  · norm_num

/-- The kernel mean absolute error is nonnegative for nonnegative weights. -/
theorem nwMae_nonneg (w : ℕ → ℚ) (data : List Candle) (i : ℕ)
    (hw : ∀ d, 0 ≤ w d) : 0 ≤ nwMae w data i := by
  unfold nwMae
  split_ifs with h
  · exact div_nonneg
      (Finset.sum_nonneg fun j _ => mul_nonneg (hw _) (abs_nonneg _))
      (le_of_lt h)
  · exact le_refl 0

/-- C6 counterexample: the claim "the computed ADX value lies in [0, 100]
for every input sequence and every index" is refuted at the finite-OHLC
input `dataZeroTR5` with period 2 under JavaScript float semantics.  The
program's own smoothed values at the two indices the ADX seed averages
(offsets 0 and 1, i.e. indices 2 and 3, reached because the input has
`2*period` bars) are smoothed TR `0, 0`, smoothed +DM `1, 3/2`, smoothed
-DM `0, 0` — computed exactly, the smoothing itself divides only by the
period.  Feeding them through the DX stage modelled faithfully over
floats gives `pdi = Infinity`, `mdi = NaN`, hence `dx = NaN` at both
indices, and the seed average `(NaN + NaN)/2` (lines 192-196) makes the
emitted `adxArray` entry NaN — a non-finite value, in no interval. -/
theorem c6_counterexample :
    smoothSeries (adxTr dataZeroTR5) 2 1 = 0 ∧
    smoothSeries (plusDMAt dataZeroTR5) 2 1 = 3 / 2 ∧
    jsDx (.finite (smoothSeries (adxTr dataZeroTR5) 2 0))
        (.finite (smoothSeries (plusDMAt dataZeroTR5) 2 0))
        (.finite (smoothSeries (minusDMAt dataZeroTR5) 2 0)) = JsVal.nan ∧
    jsDx (.finite (smoothSeries (adxTr dataZeroTR5) 2 1))
        (.finite (smoothSeries (plusDMAt dataZeroTR5) 2 1))
        (.finite (smoothSeries (minusDMAt dataZeroTR5) 2 1)) = JsVal.nan ∧
    jsDiv (jsAdd JsVal.nan JsVal.nan) (.finite 2) = JsVal.nan ∧
    JsVal.nan.isFinite = false ∧
    2 * 2 ≤ dataZeroTR5.length := by
  have h0 : smoothSeries (adxTr dataZeroTR5) 2 0 = 0 := by
    norm_num [smoothSeries, adxTr, barAt, dataZeroTR5, mkB,
      Finset.sum_range_succ, max_def, abs]
  have h1 : smoothSeries (plusDMAt dataZeroTR5) 2 0 = 1 := by
    norm_num [smoothSeries, plusDMAt, barAt, dataZeroTR5, mkB,
      Finset.sum_range_succ]
  have h2 : smoothSeries (minusDMAt dataZeroTR5) 2 0 = 0 := by
    norm_num [smoothSeries, minusDMAt, barAt, dataZeroTR5, mkB,
      Finset.sum_range_succ]
  have h3 : smoothSeries (adxTr dataZeroTR5) 2 1 = 0 := by
    norm_num [smoothSeries, adxTr, barAt, dataZeroTR5, mkB,
      Finset.sum_range_succ, max_def, abs]
  have h4 : smoothSeries (plusDMAt dataZeroTR5) 2 1 = 3 / 2 := by
    norm_num [smoothSeries, plusDMAt, barAt, dataZeroTR5, mkB,
      Finset.sum_range_succ]
  have h5 : smoothSeries (minusDMAt dataZeroTR5) 2 1 = 0 := by
    norm_num [smoothSeries, minusDMAt, barAt, dataZeroTR5, mkB,
      Finset.sum_range_succ]
  rw [h0, h1, h2, h3, h4, h5]
  refine ⟨rfl, rfl, ?_, ?_, rfl, rfl, by norm_num [dataZeroTR5]⟩ <;>
    norm_num [jsDx, jsDiv, jsMul, jsAdd, jsSub, jsNeg, jsAbs, jsEqZero]

/-- C6 amended: every RSI entry (any positive period, any read index,
out-of-range reads defaulting to 0) lies in `[0, 100]`; at every
determinable kernel-envelope index (past the 10-bar warm-up, inside the
array, with Gaussian-like nonnegative weights and nonnegative multiplier)
the ordering `lower ≤ mid ≤ upper` holds; and the ADX entries lie in
`[0, 100]` in exact arithmetic — equivalently, on every input where the
unguarded smoothed-TR denominators of the DX stage are nonzero.  On
finite inputs with a zero smoothed TR at a used index the JavaScript code
emits NaN instead (see the counterexample and C5); `ℚ` division
totalises that path to `dx = 0` here. -/
theorem c6_rsi_adx_bounds_and_envelope_order :
    (∀ (data : List Candle) (period i : ℕ), 1 ≤ period →
      0 ≤ (calculateRSI data period).getD i 0 ∧
      (calculateRSI data period).getD i 0 ≤ 100) ∧
    (∀ (data : List Candle) (period i : ℕ), 1 ≤ period →
      0 ≤ (calculateADX data period).getD i 0 ∧
      (calculateADX data period).getD i 0 ≤ 100) ∧
    (∀ (w : ℕ → ℚ) (data : List Candle) (m : ℚ) (i : ℕ),
      (∀ d, 0 ≤ w d) → 0 ≤ m → 10 ≤ i → i < data.length →
      (calculateNadarayaWatson w data m).lower.getD i 0
        ≤ (calculateNadarayaWatson w data m).mid.getD i 0 ∧
      (calculateNadarayaWatson w data m).mid.getD i 0
        ≤ (calculateNadarayaWatson w data m).upper.getD i 0) := by
  refine ⟨calculateRSI_bounds, calculateADX_bounds, ?_⟩
  intro w data m i hw hm h10 hilen
  have hmid : (calculateNadarayaWatson w data m).mid.getD i 0
      = nwMidAt w data i := by
    simp only [calculateNadarayaWatson]
    exact getD_range_map _ _ _ _ hilen
  have hup : (calculateNadarayaWatson w data m).upper.getD i 0
      = nwUpperAt w data m i := by
    simp only [calculateNadarayaWatson]
    exact getD_range_map _ _ _ _ hilen
  have hlo : (calculateNadarayaWatson w data m).lower.getD i 0
      = nwLowerAt w data m i := by
    simp only [calculateNadarayaWatson]
    exact getD_range_map _ _ _ _ hilen
  have hnot : ¬ i < 10 := by omega
  have hmae := mul_nonneg hm (nwMae_nonneg w data i hw)
  rw [hmid, hup, hlo, nwMidAt, nwUpperAt, nwLowerAt, if_neg hnot, if_neg hnot,
    if_neg hnot]
  constructor <;> linarith

/-- Witness for C6: concrete reads of all three parts. -/
theorem c6_witness :
    (0 ≤ (calculateRSI [mkC 1] 14).getD 0 0 ∧
      (calculateRSI [mkC 1] 14).getD 0 0 ≤ 100) ∧
    (0 ≤ (calculateADX [mkC 1] 14).getD 0 0 ∧
      (calculateADX [mkC 1] 14).getD 0 0 ≤ 100) ∧
    ((calculateNadarayaWatson constWeightOne dataRising20 3).lower.getD 10 0
        ≤ (calculateNadarayaWatson constWeightOne dataRising20 3).mid.getD 10 0 ∧
      (calculateNadarayaWatson constWeightOne dataRising20 3).mid.getD 10 0
        ≤ (calculateNadarayaWatson constWeightOne dataRising20 3).upper.getD
            10 0) :=
  ⟨c6_rsi_adx_bounds_and_envelope_order.1 [mkC 1] 14 0 (by norm_num),
   c6_rsi_adx_bounds_and_envelope_order.2.1 [mkC 1] 14 0 (by norm_num),
   c6_rsi_adx_bounds_and_envelope_order.2.2 constWeightOne dataRising20 3 10
     (fun d => by norm_num [constWeightOne]) (by norm_num) (by norm_num)
     (by norm_num [dataRising20])⟩

/-- JavaScript `x || d` never returns 0 when the default is nonzero. -/
theorem orDefault_ne_zero (x d : ℚ) (hd : d ≠ 0) : orDefault x d ≠ 0 := by
  unfold orDefault
  split_ifs with h
  · exact hd
  · exact h

/-- Every record the batch processor emits carries an `rsi` field of the
form `orDefault x 50` for some computed `x`. -/
theorem processIndicators_rsi_shape (w : ℕ → ℚ) (candles : List Candle)
    (r : IndCandle) (hr : r ∈ processIndicators w candles) :
    ∃ x, r.rsi = orDefault x 50 := by
  unfold processIndicators at hr
  split_ifs at hr with h
  · simp at hr
  · obtain ⟨j, hj, hfj⟩ := List.mem_map.mp hr
    exact ⟨_, by rw [← hfj]⟩

/-- C9: the display substitution `rsi[i] || 50` of `processIndicators`
treats a computed RSI of exactly 0 as absent: the `rsi` field of an output
record is never 0, and on the strictly decreasing 20-bar series the batch
RSI at index 14 is exactly 0 while the emitted record's `rsi` is the
display default 50. -/
theorem c9_rsi_display_default_shadows_zero :
    (∀ (w : ℕ → ℚ) (candles : List Candle) (r : IndCandle),
      r ∈ processIndicators w candles → r.rsi ≠ 0) ∧
    (calculateRSI dataFalling20 14).getD 14 0 = 0 ∧
    ((processIndicators constWeightOne dataFalling20).getD 14 default).rsi
      = 50 := by
  have hrsi0 : (calculateRSI dataFalling20 14).getD 14 0 = 0 := by
    have h : (calculateRSI dataFalling20 14).getD 14 0
        = rsiAt dataFalling20 14 14 := by
      unfold calculateRSI
      rw [if_neg (by norm_num [dataFalling20]),
        getD_range_map _ _ _ _ (by norm_num [dataFalling20])]
      norm_num
    rw [h, rsiAt]
    norm_num [rsiAvg, rsiLoss, rsiGain, rsiChange, barAt, dataFalling20, mkC,
      Finset.sum_range_succ]
  refine ⟨?_, hrsi0, ?_⟩
  · intro w candles r hr
    obtain ⟨x, hx⟩ := processIndicators_rsi_shape w candles r hr
    rw [hx]
    exact orDefault_ne_zero x 50 (by norm_num)
  · unfold processIndicators
    rw [if_neg (by norm_num [dataFalling20])]
    simp only [map_sanitizeQ_id]
    rw [getD_range_map _ _ _ _ (by norm_num [dataFalling20])]
    simp only
    rw [hrsi0]
    norm_num [orDefault]

/-- Witness for C9: the first record of a singleton input has a nonzero
`rsi` field. -/
theorem c9_witness :
    ((processIndicators constWeightOne [mkC 1]).getD 0 default).rsi ≠ 0 := by
  apply c9_rsi_display_default_shadows_zero.1 constWeightOne [mkC 1]
  have hne : processIndicators constWeightOne [mkC 1] ≠ [] := by
    intro h
    have hlen : (processIndicators constWeightOne [mkC 1]).length = 1 := by
      unfold processIndicators
      rw [if_neg (by norm_num)]
      simp
    rw [h] at hlen
    simp at hlen
  rcases hl : processIndicators constWeightOne [mkC 1] with _ | ⟨a, t⟩
  · exact absurd hl hne
  · simp [List.getD]
